import Mathlib

/-
  Verification of the effective-permittivity unit-cell solver (Yproblem.py).

  The solver reads a triangular mesh of the unit square with per-cell integer
  subdomain markers, builds a P1 function space with periodic boundary
  conditions (PeriodicBoundary.inside / PeriodicBoundary.map), assembles and
  solves two corrector problems, and integrates the coefficient-weighted
  corrector gradients to obtain a 2x2 effective permittivity tensor with
  zero off-diagonal entries.

  The embedding below uses exact rational arithmetic.  Geometry is a list of
  2D vertices and triangles; a P1 function is its vector of vertex values;
  per-cell quantities (areas, barycentric basis gradients) are the standard
  closed forms that the finite element assembly evaluates.  The periodic
  DOF identification produced by the library is modelled as a map r from
  vertex indices to reduced DOF indices, and the external linear solver as
  the relation "F solves A F = b".
-/

namespace Effective2D

/-- The absolute tolerance used by the near comparisons of the PDE library
(DOLFIN_EPS = 3.0e-16 in the FEniCS version the script imports). -/
def DOLFIN_EPS : ℚ := 3 / 10 ^ 16

/-- Translation of the near(x, x0) predicate used by the boundary code:
true when x is within DOLFIN_EPS of x0. -/
def near (x x0 : ℚ) : Bool := decide (|x - x0| ≤ DOLFIN_EPS)

namespace PeriodicBoundary

/-- Translation of PeriodicBoundary.inside (Yproblem.py lines 33-38):
true on the left or bottom boundary and not on one of the two corners
(0, 1) and (1, 0), and only when the caller asserts on_boundary. -/
def inside (x : ℚ × ℚ) (on_boundary : Bool) : Bool :=
  (near x.1 0 || near x.2 0) &&
    !((near x.1 0 && near x.2 1) || (near x.1 1 && near x.2 0)) && on_boundary

/-- Translation of PeriodicBoundary.map (Yproblem.py lines 40-55):
the right upper corner goes to the left lower corner, the right boundary to
the left boundary, and otherwise the point is shifted down by one. -/
def map (x : ℚ × ℚ) : ℚ × ℚ :=
  if near x.1 1 && near x.2 1 then (x.1 - 1, x.2 - 1)
  else if near x.1 1 then (x.1 - 1, x.2)
  else (x.1, x.2 - 1)

end PeriodicBoundary

/-- Translation of Coeff.eval_cell (Yproblem.py lines 68-72): the coefficient
is inner_permittivity on cells whose marker is 1 and outer_permittivity on
every other cell. -/
def Coeff.eval_cell (markers : List ℤ) (inner_permittivity outer_permittivity : ℚ)
    (cellIndex : ℕ) : ℚ :=
  if markers.getD cellIndex 0 = 1 then inner_permittivity else outer_permittivity

/-- A triangular mesh: vertex coordinates and triangles given by vertex
indices, as read from the mesh file. -/
structure Mesh where
  vertices : List (ℚ × ℚ)
  cells : List (ℕ × ℕ × ℕ)

/-- Coordinates of vertex i. -/
def Mesh.vtx (m : Mesh) (i : ℕ) : ℚ × ℚ := m.vertices.getD i (0, 0)

/-- The vertex-index triple of cell c. -/
def Mesh.cellVerts (m : Mesh) (c : ℕ) : ℕ × ℕ × ℕ := m.cells.getD c (0, 0, 0)

/-- The j-th local vertex index of cell c. -/
def Mesh.cellVert (m : Mesh) (c : ℕ) (j : Fin 3) : ℕ :=
  if (j : ℕ) = 0 then (m.cellVerts c).1
  else if (j : ℕ) = 1 then (m.cellVerts c).2.1
  else (m.cellVerts c).2.2

/-- Twice the signed area of cell c. -/
def Mesh.area2 (m : Mesh) (c : ℕ) : ℚ :=
  let pa := m.vtx (m.cellVert c 0)
  let pb := m.vtx (m.cellVert c 1)
  let pc := m.vtx (m.cellVert c 2)
  (pb.1 - pa.1) * (pc.2 - pa.2) - (pc.1 - pa.1) * (pb.2 - pa.2)

/-- Area of cell c. -/
def Mesh.cellArea (m : Mesh) (c : ℕ) : ℚ := m.area2 c / 2

/-- Gradient of the j-th P1 barycentric basis function on cell c (constant
on the cell). -/
def Mesh.basisGrad (m : Mesh) (c : ℕ) (j : Fin 3) : ℚ × ℚ :=
  let pa := m.vtx (m.cellVert c 0)
  let pb := m.vtx (m.cellVert c 1)
  let pc := m.vtx (m.cellVert c 2)
  let t := m.area2 c
  if (j : ℕ) = 0 then ((pb.2 - pc.2) / t, (pc.1 - pb.1) / t)
  else if (j : ℕ) = 1 then ((pc.2 - pa.2) / t, (pa.1 - pc.1) / t)
  else ((pa.2 - pb.2) / t, (pb.1 - pa.1) / t)

/-- Gradient on cell c of the P1 function with vertex values f (constant on
the cell): the Dx(f, 0) and Dx(f, 1) the script integrates. -/
def Mesh.gradOn (m : Mesh) (f : ℕ → ℚ) (c : ℕ) : ℚ × ℚ :=
  (∑ j : Fin 3, f (m.cellVert c j) * (m.basisGrad c j).1,
   ∑ j : Fin 3, f (m.cellVert c j) * (m.basisGrad c j).2)

/-- Gradient on cell c of the reduced basis function of DOF i under the
periodic DOF identification r (the sum of the barycentric basis gradients of
the local vertices identified with i). -/
def dofGrad (m : Mesh) (r : ℕ → ℕ) (i c : ℕ) : ℚ × ℚ :=
  (∑ j : Fin 3, if r (m.cellVert c j) = i then (m.basisGrad c j).1 else 0,
   ∑ j : Fin 3, if r (m.cellVert c j) = i then (m.basisGrad c j).2 else 0)

/-- Stiffness matrix assembled from the first variational form
a1 = permittivity * dot(grad(f1), grad(v1)) * dx (Yproblem.py line 82). -/
def assemble_a1 (m : Mesh) (markers : List ℤ) (inner_permittivity outer_permittivity : ℚ)
    (r : ℕ → ℕ) (i j : ℕ) : ℚ :=
  ∑ c ∈ Finset.range m.cells.length,
    Coeff.eval_cell markers inner_permittivity outer_permittivity c * m.cellArea c *
      ((dofGrad m r i c).1 * (dofGrad m r j c).1 + (dofGrad m r i c).2 * (dofGrad m r j c).2)

/-- Stiffness matrix assembled from the second variational form
a2 = permittivity * dot(grad(f2), grad(v2)) * dx (Yproblem.py line 86). -/
def assemble_a2 (m : Mesh) (markers : List ℤ) (inner_permittivity outer_permittivity : ℚ)
    (r : ℕ → ℕ) (i j : ℕ) : ℚ :=
  ∑ c ∈ Finset.range m.cells.length,
    Coeff.eval_cell markers inner_permittivity outer_permittivity c * m.cellArea c *
      ((dofGrad m r i c).1 * (dofGrad m r j c).1 + (dofGrad m r i c).2 * (dofGrad m r j c).2)

/-- Load vector assembled from L1 = -Dx(v1, 0) * permittivity * dx
(Yproblem.py line 83). -/
def assemble_L1 (m : Mesh) (markers : List ℤ) (inner_permittivity outer_permittivity : ℚ)
    (r : ℕ → ℕ) (i : ℕ) : ℚ :=
  ∑ c ∈ Finset.range m.cells.length,
    -(dofGrad m r i c).1 * Coeff.eval_cell markers inner_permittivity outer_permittivity c *
      m.cellArea c

/-- Load vector assembled from L2 = -Dx(v2, 1) * permittivity * dx
(Yproblem.py line 87). -/
def assemble_L2 (m : Mesh) (markers : List ℤ) (inner_permittivity outer_permittivity : ℚ)
    (r : ℕ → ℕ) (i : ℕ) : ℚ :=
  ∑ c ∈ Finset.range m.cells.length,
    -(dofGrad m r i c).2 * Coeff.eval_cell markers inner_permittivity outer_permittivity c *
      m.cellArea c

/-- The external linear solver relation for solve(A, F, b) on a system with
n reduced DOFs. -/
def solvesLinearSystem (A : ℕ → ℕ → ℚ) (b : ℕ → ℚ) (n : ℕ) (F : ℕ → ℚ) : Prop :=
  ∀ i ∈ Finset.range n, (∑ j ∈ Finset.range n, A i j * F j) = b i

/-- Translation of A11 = assemble(permittivity * (Dx(f1, 0) + 1) * dx)
(Yproblem.py line 102), as the finite element assembly evaluates it cell by
cell. -/
def assembleA11 (m : Mesh) (markers : List ℤ) (inner_permittivity outer_permittivity : ℚ)
    (f1 : ℕ → ℚ) : ℚ :=
  ∑ c ∈ Finset.range m.cells.length,
    Coeff.eval_cell markers inner_permittivity outer_permittivity c *
      ((m.gradOn f1 c).1 + 1) * m.cellArea c

/-- Translation of A22 = assemble(permittivity * (Dx(f2, 1) + 1) * dx)
(Yproblem.py line 105). -/
def assembleA22 (m : Mesh) (markers : List ℤ) (inner_permittivity outer_permittivity : ℚ)
    (f2 : ℕ → ℚ) : ℚ :=
  ∑ c ∈ Finset.range m.cells.length,
    Coeff.eval_cell markers inner_permittivity outer_permittivity c *
      ((m.gradOn f2 c).2 + 1) * m.cellArea c

/-- The 2x2 effective permittivity matrix the script writes out, with the
field names of the script variables A11, A12, A21, A22. -/
structure EffectiveTensor where
  A11 : ℚ
  A12 : ℚ
  A21 : ℚ
  A22 : ℚ
  deriving DecidableEq

/-- Translation of the effective permittivity calculation of Y_solver
(Yproblem.py lines 102-105): the diagonal entries are assembled integrals
over the solved correctors f1, f2 and the off-diagonal entries are the
literal constants 0. -/
def Y_solver_tensor (m : Mesh) (markers : List ℤ) (inner_permittivity outer_permittivity : ℚ)
    (f1 f2 : ℕ → ℚ) : EffectiveTensor :=
  { A11 := assembleA11 m markers inner_permittivity outer_permittivity f1
    A12 := 0
    A21 := 0
    A22 := assembleA22 m markers inner_permittivity outer_permittivity f2 }

/-- The specification formula for the diagonal entries: the domain integral
of permittivity(x) times (the partial derivative of f in direction i plus
one), written independently of the solver code as a sum of exact per-cell
integrals of the piecewise-constant integrand. -/
def specDiagonalIntegral (m : Mesh) (markers : List ℤ)
    (inner_permittivity outer_permittivity : ℚ) (f : ℕ → ℚ) (i : Fin 2) : ℚ :=
  ∑ c ∈ Finset.range m.cells.length,
    Coeff.eval_cell markers inner_permittivity outer_permittivity c *
      ((if i = 0 then (m.gradOn f c).1 else (m.gradOn f c).2) + 1) * m.cellArea c

/-- A concrete periodic mesh of the unit square: the four corners and the two
triangles cut by the main diagonal, with markers tagging the first cell as
inclusion (1) and the second as matrix (2). -/
def M0 : Mesh :=
  { vertices := [(0, 0), (1, 0), (1, 1), (0, 1)]
    cells := [(0, 1, 2), (0, 2, 3)] }

/-- The second corrector solve as the script performs it, against the matrix
assembled from the form a2. -/
def originalSecondSolve (m : Mesh) (markers : List ℤ)
    (inner_permittivity outer_permittivity : ℚ) (r : ℕ → ℕ) (n : ℕ) (F2 : ℕ → ℚ) : Prop :=
  solvesLinearSystem (assemble_a2 m markers inner_permittivity outer_permittivity r)
    (assemble_L2 m markers inner_permittivity outer_permittivity r) n F2

/-- Modelled from the spec: the refinement that reuses the stiffness matrix
assembled for the first direction in the second solve and only reassembles
the load vector. -/
def reuseSecondSolve (m : Mesh) (markers : List ℤ)
    (inner_permittivity outer_permittivity : ℚ) (r : ℕ → ℕ) (n : ℕ) (F2 : ℕ → ℚ) : Prop :=
  solvesLinearSystem (assemble_a1 m markers inner_permittivity outer_permittivity r)
    (assemble_L2 m markers inner_permittivity outer_permittivity r) n F2

lemma near_eq_true_iff (x x0 : ℚ) : near x x0 = true ↔ |x - x0| ≤ DOLFIN_EPS := by
  simp [near]

lemma near_true_of {x x0 : ℚ} (h : |x - x0| ≤ DOLFIN_EPS) : near x x0 = true := by
  simp [near, h]

lemma near_false_of {x x0 : ℚ} (h : ¬ |x - x0| ≤ DOLFIN_EPS) : near x x0 = false := by
  simp [near, h]

lemma near_self_eq (x : ℚ) : near x x = true :=
  near_true_of (by norm_num [DOLFIN_EPS])

lemma near_zero_one_eq : near (0 : ℚ) 1 = false :=
  near_false_of (by norm_num [DOLFIN_EPS, abs_le])

lemma near_one_zero_eq : near (1 : ℚ) 0 = false :=
  near_false_of (by norm_num [DOLFIN_EPS, abs_le])

lemma map_corner01_eval : PeriodicBoundary.map ((0 : ℚ), (1 : ℚ)) = (0, 0) := by
  norm_num [PeriodicBoundary.map, near_zero_one_eq]

lemma map_corner10_eval : PeriodicBoundary.map ((1 : ℚ), (0 : ℚ)) = (0, 0) := by
  norm_num [PeriodicBoundary.map, near_self_eq, near_zero_one_eq]

lemma inside_corner01_eval (ob : Bool) :
    PeriodicBoundary.inside ((0 : ℚ), (1 : ℚ)) ob = false := by
  simp [PeriodicBoundary.inside, near_self_eq]

lemma inside_corner10_eval (ob : Bool) :
    PeriodicBoundary.inside ((1 : ℚ), (0 : ℚ)) ob = false := by
  simp [PeriodicBoundary.inside, near_self_eq, near_one_zero_eq, near_zero_one_eq]

/-- C3: the periodic map sends a point with both coordinates within tolerance
of 1 to (x - 1, y - 1), a point with only the first coordinate within
tolerance of 1 to (x - 1, y), and any other point to (x, y - 1). -/
theorem periodic_map_cases (p : ℚ × ℚ) :
    (|p.1 - 1| ≤ DOLFIN_EPS → |p.2 - 1| ≤ DOLFIN_EPS →
        PeriodicBoundary.map p = (p.1 - 1, p.2 - 1)) ∧
    (|p.1 - 1| ≤ DOLFIN_EPS → ¬ |p.2 - 1| ≤ DOLFIN_EPS →
        PeriodicBoundary.map p = (p.1 - 1, p.2)) ∧
    (¬ |p.1 - 1| ≤ DOLFIN_EPS → PeriodicBoundary.map p = (p.1, p.2 - 1)) := by
  unfold PeriodicBoundary.map
  by_cases hx : |p.1 - 1| ≤ DOLFIN_EPS <;> by_cases hy : |p.2 - 1| ≤ DOLFIN_EPS <;>
    simp [near, hx, hy]

/-- C3 witness: the three cases evaluated at (1, 1), (1, 1/2) and (1/2, 1);
in particular (1, 1) maps to (0, 0). -/
theorem periodic_map_cases_witness :
    PeriodicBoundary.map (1, 1) = (0, 0) ∧
    PeriodicBoundary.map (1, 1/2) = (0, 1/2) ∧
    PeriodicBoundary.map (1/2, 1) = (1/2, 0) :=
  ⟨by
    have h := (periodic_map_cases (1, 1)).1 (by norm_num [DOLFIN_EPS, abs_le])
      (by norm_num [DOLFIN_EPS, abs_le])
    simpa using h,
   by
    have h := (periodic_map_cases (1, 1/2)).2.1 (by norm_num [DOLFIN_EPS, abs_le])
      (by norm_num [DOLFIN_EPS, abs_le])
    simpa using h,
   by
    have h := (periodic_map_cases (1/2, 1)).2.2 (by norm_num [DOLFIN_EPS, abs_le])
    simpa using h⟩

/-- C4: inside(p, on_boundary) is true exactly when the caller asserts
on_boundary, p is within tolerance of the left edge or the bottom edge, and
p is not within tolerance of the corner (0, 1) nor of the corner (1, 0). -/
theorem periodic_inside_iff (p : ℚ × ℚ) (on_boundary : Bool) :
    PeriodicBoundary.inside p on_boundary = true ↔
      on_boundary = true ∧ (|p.1| ≤ DOLFIN_EPS ∨ |p.2| ≤ DOLFIN_EPS) ∧
        ¬(|p.1| ≤ DOLFIN_EPS ∧ |p.2 - 1| ≤ DOLFIN_EPS) ∧
        ¬(|p.1 - 1| ≤ DOLFIN_EPS ∧ |p.2| ≤ DOLFIN_EPS) := by
  simp only [PeriodicBoundary.inside, near, Bool.and_eq_true, Bool.or_eq_true,
    Bool.not_eq_true', Bool.and_eq_false_iff, Bool.or_eq_false_iff,
    decide_eq_true_eq, decide_eq_false_iff_not, sub_zero]
  tauto

/-- C6: the coefficient lookup returns inner_permittivity on a cell whose
marker equals 1 and outer_permittivity on every other cell. -/
theorem coeff_eval_cell_spec (markers : List ℤ) (inner_permittivity outer_permittivity : ℚ)
    (c : ℕ) (hc : c < markers.length) :
    (markers.getD c 0 = 1 →
        Coeff.eval_cell markers inner_permittivity outer_permittivity c = inner_permittivity) ∧
    (markers.getD c 0 ≠ 1 →
        Coeff.eval_cell markers inner_permittivity outer_permittivity c = outer_permittivity) := by
  refine ⟨fun h => ?_, fun h => ?_⟩
  · unfold Coeff.eval_cell
    rw [if_pos h]
  · unfold Coeff.eval_cell
    rw [if_neg h]

/-- C6 witness: both branches on the two-cell marker list [1, 2]. -/
theorem coeff_eval_cell_spec_witness :
    Coeff.eval_cell [1, 2] 5 7 0 = 5 ∧ Coeff.eval_cell [1, 2] 5 7 1 = 7 :=
  ⟨(coeff_eval_cell_spec [1, 2] 5 7 0 (by decide)).1 (by decide),
   (coeff_eval_cell_spec [1, 2] 5 7 1 (by decide)).2 (by decide)⟩

/-- C10: any marker value other than 1, including values outside the
documented set such as 0, 3 or negative tags, silently yields
outer_permittivity; the lookup is total and raises no error. -/
theorem coeff_other_tags_outer (markers : List ℤ) (inner_permittivity outer_permittivity : ℚ)
    (c : ℕ) (hc : c < markers.length) (ht : markers.getD c 0 ≠ 1) :
    Coeff.eval_cell markers inner_permittivity outer_permittivity c = outer_permittivity := by
  unfold Coeff.eval_cell
  rw [if_neg ht]

/-- C10 witness: tags 0, 3 and -2 all yield the outer permittivity. -/
theorem coeff_other_tags_outer_witness :
    Coeff.eval_cell [0, 3, -2] 5 7 0 = 7 ∧ Coeff.eval_cell [0, 3, -2] 5 7 1 = 7 ∧
      Coeff.eval_cell [0, 3, -2] 5 7 2 = 7 :=
  ⟨coeff_other_tags_outer [0, 3, -2] 5 7 0 (by decide) (by decide),
   coeff_other_tags_outer [0, 3, -2] 5 7 1 (by decide) (by decide),
   coeff_other_tags_outer [0, 3, -2] 5 7 2 (by decide) (by decide)⟩

/-- C1: for every pair of corrector fields the tensor the solver produces has
the spec integral of permittivity times (the direction-i derivative of f_i
plus one) on the diagonal and zeros off the diagonal. -/
theorem effective_tensor_diagonal_integral (m : Mesh) (markers : List ℤ)
    (inner_permittivity outer_permittivity : ℚ) (f1 f2 : ℕ → ℚ) :
    Y_solver_tensor m markers inner_permittivity outer_permittivity f1 f2 =
      { A11 := specDiagonalIntegral m markers inner_permittivity outer_permittivity f1 0
        A12 := 0
        A21 := 0
        A22 := specDiagonalIntegral m markers inner_permittivity outer_permittivity f2 1 } := by
  unfold Y_solver_tensor specDiagonalIntegral assembleA11 assembleA22
  norm_num

/-- C2: the off-diagonal entries of the tensor the solver produces are the
structural constant 0 for every mesh, tagging and permittivity pair. -/
theorem effective_tensor_offdiagonal_zero (m : Mesh) (markers : List ℤ)
    (inner_permittivity outer_permittivity : ℚ) (f1 f2 : ℕ → ℚ) :
    (Y_solver_tensor m markers inner_permittivity outer_permittivity f1 f2).A12 = 0 ∧
    (Y_solver_tensor m markers inner_permittivity outer_permittivity f1 f2).A21 = 0 :=
  ⟨rfl, rfl⟩

/-- C8: the two bilinear forms assemble the same stiffness matrix, so reusing
the matrix assembled for the first direction in the second solve accepts
exactly the same solutions as assembling it again. -/
theorem stiffness_reuse_equiv (m : Mesh) (markers : List ℤ)
    (inner_permittivity outer_permittivity : ℚ) (r : ℕ → ℕ) (n : ℕ) (F2 : ℕ → ℚ) :
    assemble_a1 m markers inner_permittivity outer_permittivity r =
      assemble_a2 m markers inner_permittivity outer_permittivity r ∧
    (originalSecondSolve m markers inner_permittivity outer_permittivity r n F2 ↔
      reuseSecondSolve m markers inner_permittivity outer_permittivity r n F2) :=
  ⟨rfl, Iff.rfl⟩

/-- C5 counterexample: the excluded corner (0, 1) is itself sent by the
periodic map to the different point (0, 0), so the corner is mapped to
another point, contrary to the claim that it is matched to no other point. -/
theorem corner_mapped_counterexample :
    PeriodicBoundary.map (0, 1) = (0, 0) ∧ ((0, 0) : ℚ × ℚ) ≠ (0, 1) := by
  constructor
  · exact map_corner01_eval
  · simp [Prod.ext_iff]

/-- C5 amended: for every point of the unit square the periodic map never
returns either excluded corner, and neither corner ever satisfies inside;
however each excluded corner is itself mapped to (0, 0), hence identified
with the origin rather than left unmatched. -/
theorem corner_exclusion_amended (p : ℚ × ℚ) (h0 : 0 ≤ p.1) (h1 : p.1 ≤ 1)
    (h2 : 0 ≤ p.2) (h3 : p.2 ≤ 1) :
    (PeriodicBoundary.map p ≠ ((0 : ℚ), (1 : ℚ)) ∧
      PeriodicBoundary.map p ≠ ((1 : ℚ), (0 : ℚ))) ∧
    (∀ ob : Bool, PeriodicBoundary.inside (0, 1) ob = false ∧
      PeriodicBoundary.inside (1, 0) ob = false) ∧
    PeriodicBoundary.map (0, 1) = (0, 0) ∧ PeriodicBoundary.map (1, 0) = (0, 0) := by
  have hEpsPos : (0 : ℚ) ≤ DOLFIN_EPS := by norm_num [DOLFIN_EPS]
  refine ⟨⟨?_, ?_⟩, fun ob => ⟨inside_corner01_eval ob, inside_corner10_eval ob⟩,
    map_corner01_eval, map_corner10_eval⟩
  · unfold PeriodicBoundary.map
    split_ifs with hA hB
    · intro hEq
      rw [Prod.mk.injEq] at hEq
      have := hEq.2
      linarith
    · intro hEq
      rw [Prod.mk.injEq] at hEq
      have hy : ¬ near p.2 1 = true := fun hy =>
        hA (by rw [Bool.and_eq_true]; exact ⟨hB, hy⟩)
      apply hy
      rw [near_eq_true_iff, hEq.2]
      simpa using hEpsPos
    · intro hEq
      rw [Prod.mk.injEq] at hEq
      have := hEq.2
      linarith
  · unfold PeriodicBoundary.map
    split_ifs with hA hB
    · intro hEq
      rw [Prod.mk.injEq] at hEq
      have := hEq.1
      linarith
    · intro hEq
      rw [Prod.mk.injEq] at hEq
      have := hEq.1
      linarith
    · intro hEq
      rw [Prod.mk.injEq] at hEq
      apply hB
      rw [near_eq_true_iff, hEq.1]
      simpa using hEpsPos

/-- C5 amended witness: the amended statement evaluated at the boundary
point (1, 1/2). -/
theorem corner_exclusion_amended_witness :
    (PeriodicBoundary.map ((1 : ℚ), (1/2 : ℚ)) ≠ ((0 : ℚ), (1 : ℚ)) ∧
      PeriodicBoundary.map ((1 : ℚ), (1/2 : ℚ)) ≠ ((1 : ℚ), (0 : ℚ))) ∧
    (∀ ob : Bool, PeriodicBoundary.inside (0, 1) ob = false ∧
      PeriodicBoundary.inside (1, 0) ob = false) ∧
    PeriodicBoundary.map (0, 1) = (0, 0) ∧ PeriodicBoundary.map (1, 0) = (0, 0) :=
  corner_exclusion_amended (1, 1/2) (by norm_num) (by norm_num) (by norm_num) (by norm_num)

/-- C9 counterexample: with inner_permittivity = -1 and outer_permittivity = 0
the solver body proceeds through coefficient evaluation, assembly and tensor
computation and produces a concrete tensor; no configuration check exists in
Y_solver and no error is raised. -/
theorem no_config_error_counterexample :
    Y_solver_tensor M0 [1, 2] (-1) 0 (fun _ => 0) (fun _ => 0) =
      { A11 := -(1/2), A12 := 0, A21 := 0, A22 := -(1/2) } := by
  unfold Y_solver_tensor assembleA11 assembleA22
  norm_num [M0, Mesh.gradOn, Mesh.basisGrad, Mesh.cellVert, Mesh.cellVerts, Mesh.vtx,
    Mesh.cellArea, Mesh.area2, Coeff.eval_cell, Finset.sum_range_succ, Fin.sum_univ_three]

/-- C9 amended: Y_solver performs no validation of the permittivity
parameters: for every pair of values, including zero and negative ones, the
pipeline computes the assembled tensor by the same formula (shown here on
the mesh M0 with zero corrector fields, where the diagonal is the mean of
the two permittivities). -/
theorem no_permittivity_validation (inner_permittivity outer_permittivity : ℚ) :
    Y_solver_tensor M0 [1, 2] inner_permittivity outer_permittivity
        (fun _ => 0) (fun _ => 0) =
      { A11 := inner_permittivity / 2 + outer_permittivity / 2
        A12 := 0
        A21 := 0
        A22 := inner_permittivity / 2 + outer_permittivity / 2 } := by
  unfold Y_solver_tensor assembleA11 assembleA22
  norm_num [M0, Mesh.gradOn, Mesh.basisGrad, Mesh.cellVert, Mesh.cellVerts, Mesh.vtx,
    Mesh.cellArea, Mesh.area2, Coeff.eval_cell, Finset.sum_range_succ, Fin.sum_univ_three]
  ring

lemma gradOn_comp_sum_x (m : Mesh) (r : ℕ → ℕ) (F : ℕ → ℚ) (n : ℕ) (c : ℕ)
    (hr : ∀ j : Fin 3, r (m.cellVert c j) < n) :
    (m.gradOn (fun v => F (r v)) c).1 =
      ∑ i ∈ Finset.range n, F i * (dofGrad m r i c).1 := by
  dsimp only [Mesh.gradOn, dofGrad]
  simp only [Finset.mul_sum, mul_ite, mul_zero]
  rw [Finset.sum_comm]
  refine Finset.sum_congr rfl fun j _ => ?_
  rw [Finset.sum_ite_eq (Finset.range n) (r (m.cellVert c j))]
  rw [if_pos (Finset.mem_range.mpr (hr j))]

lemma gradOn_comp_sum_y (m : Mesh) (r : ℕ → ℕ) (F : ℕ → ℚ) (n : ℕ) (c : ℕ)
    (hr : ∀ j : Fin 3, r (m.cellVert c j) < n) :
    (m.gradOn (fun v => F (r v)) c).2 =
      ∑ i ∈ Finset.range n, F i * (dofGrad m r i c).2 := by
  dsimp only [Mesh.gradOn, dofGrad]
  simp only [Finset.mul_sum, mul_ite, mul_zero]
  rw [Finset.sum_comm]
  refine Finset.sum_congr rfl fun j _ => ?_
  rw [Finset.sum_ite_eq (Finset.range n) (r (m.cellVert c j))]
  rw [if_pos (Finset.mem_range.mpr (hr j))]

lemma sum_area_gradOn_x (m : Mesh) (r : ℕ → ℕ) (F : ℕ → ℚ) (n : ℕ)
    (hr : ∀ c ∈ Finset.range m.cells.length, ∀ j : Fin 3, r (m.cellVert c j) < n)
    (hcx : ∀ i ∈ Finset.range n,
      ∑ c ∈ Finset.range m.cells.length, m.cellArea c * (dofGrad m r i c).1 = 0) :
    ∑ c ∈ Finset.range m.cells.length,
      m.cellArea c * (m.gradOn (fun v => F (r v)) c).1 = 0 := by
  have h1 : ∀ c ∈ Finset.range m.cells.length,
      m.cellArea c * (m.gradOn (fun v => F (r v)) c).1
        = ∑ i ∈ Finset.range n, F i * (m.cellArea c * (dofGrad m r i c).1) := by
    intro c hc
    rw [gradOn_comp_sum_x m r F n c (hr c hc), Finset.mul_sum]
    exact Finset.sum_congr rfl fun i _ => by ring
  rw [Finset.sum_congr rfl h1, Finset.sum_comm]
  refine Finset.sum_eq_zero fun i hi => ?_
  rw [← Finset.mul_sum, hcx i hi, mul_zero]

lemma sum_area_gradOn_y (m : Mesh) (r : ℕ → ℕ) (F : ℕ → ℚ) (n : ℕ)
    (hr : ∀ c ∈ Finset.range m.cells.length, ∀ j : Fin 3, r (m.cellVert c j) < n)
    (hcy : ∀ i ∈ Finset.range n,
      ∑ c ∈ Finset.range m.cells.length, m.cellArea c * (dofGrad m r i c).2 = 0) :
    ∑ c ∈ Finset.range m.cells.length,
      m.cellArea c * (m.gradOn (fun v => F (r v)) c).2 = 0 := by
  have h1 : ∀ c ∈ Finset.range m.cells.length,
      m.cellArea c * (m.gradOn (fun v => F (r v)) c).2
        = ∑ i ∈ Finset.range n, F i * (m.cellArea c * (dofGrad m r i c).2) := by
    intro c hc
    rw [gradOn_comp_sum_y m r F n c (hr c hc), Finset.mul_sum]
    exact Finset.sum_congr rfl fun i _ => by ring
  rw [Finset.sum_congr rfl h1, Finset.sum_comm]
  refine Finset.sum_eq_zero fun i hi => ?_
  rw [← Finset.mul_sum, hcy i hi, mul_zero]

/-- C7: on a valid periodic mesh of the unit square (positive total area one,
reduced DOFs in range, and the discrete periodicity condition that every
reduced basis function has zero mean derivative in each direction), equal
permittivities inner = outer = k make the solved tensor exactly
diag(k, k); in particular k = 1 gives the identity matrix. -/
theorem homogeneous_medium_diag (m : Mesh) (markers : List ℤ) (k : ℚ) (r : ℕ → ℕ) (n : ℕ)
    (F1 F2 : ℕ → ℚ)
    (hr : ∀ c ∈ Finset.range m.cells.length, ∀ j : Fin 3, r (m.cellVert c j) < n)
    (hcx : ∀ i ∈ Finset.range n,
      ∑ c ∈ Finset.range m.cells.length, m.cellArea c * (dofGrad m r i c).1 = 0)
    (hcy : ∀ i ∈ Finset.range n,
      ∑ c ∈ Finset.range m.cells.length, m.cellArea c * (dofGrad m r i c).2 = 0)
    (harea : ∑ c ∈ Finset.range m.cells.length, m.cellArea c = 1)
    (h1 : solvesLinearSystem (assemble_a1 m markers k k r) (assemble_L1 m markers k k r) n F1)
    (h2 : solvesLinearSystem (assemble_a2 m markers k k r) (assemble_L2 m markers k k r) n F2) :
    Y_solver_tensor m markers k k (fun v => F1 (r v)) (fun v => F2 (r v)) =
      { A11 := k, A12 := 0, A21 := 0, A22 := k } := by
  have hco : ∀ c, Coeff.eval_cell markers k k c = k := by
    intro c
    unfold Coeff.eval_cell
    split <;> rfl
  have e11 : assembleA11 m markers k k (fun v => F1 (r v)) = k := by
    unfold assembleA11
    have hterm : ∀ c ∈ Finset.range m.cells.length,
        Coeff.eval_cell markers k k c * ((m.gradOn (fun v => F1 (r v)) c).1 + 1) * m.cellArea c
          = k * (m.cellArea c * (m.gradOn (fun v => F1 (r v)) c).1) + k * m.cellArea c := by
      intro c _
      rw [hco c]
      ring
    rw [Finset.sum_congr rfl hterm, Finset.sum_add_distrib, ← Finset.mul_sum, ← Finset.mul_sum,
      sum_area_gradOn_x m r F1 n hr hcx, harea]
    ring
  have e22 : assembleA22 m markers k k (fun v => F2 (r v)) = k := by
    unfold assembleA22
    have hterm : ∀ c ∈ Finset.range m.cells.length,
        Coeff.eval_cell markers k k c * ((m.gradOn (fun v => F2 (r v)) c).2 + 1) * m.cellArea c
          = k * (m.cellArea c * (m.gradOn (fun v => F2 (r v)) c).2) + k * m.cellArea c := by
      intro c _
      rw [hco c]
      ring
    rw [Finset.sum_congr rfl hterm, Finset.sum_add_distrib, ← Finset.mul_sum, ← Finset.mul_sum,
      sum_area_gradOn_y m r F2 n hr hcy, harea]
    ring
  unfold Y_solver_tensor
  rw [e11, e22]

/-- C7 witness: the unit square mesh M0 with the all-corners periodic DOF
map, k = 1 and the zero correctors (which solve both assembled systems)
yields the identity tensor. -/
theorem homogeneous_medium_diag_witness :
    Y_solver_tensor M0 [1, 2] 1 1 (fun _ => 0) (fun _ => 0) =
      { A11 := 1, A12 := 0, A21 := 0, A22 := 1 } :=
  homogeneous_medium_diag M0 [1, 2] 1 (fun _ => 0) 1 (fun _ => 0) (fun _ => 0)
    (fun _ _ _ => Nat.zero_lt_one)
    (by
      intro i hi
      rw [Finset.mem_range] at hi
      have hi0 : i = 0 := by omega
      subst hi0
      norm_num [M0, dofGrad, Mesh.cellArea, Mesh.area2, Mesh.basisGrad, Mesh.vtx,
        Mesh.cellVert, Mesh.cellVerts, Finset.sum_range_succ, Fin.sum_univ_three])
    (by
      intro i hi
      rw [Finset.mem_range] at hi
      have hi0 : i = 0 := by omega
      subst hi0
      norm_num [M0, dofGrad, Mesh.cellArea, Mesh.area2, Mesh.basisGrad, Mesh.vtx,
        Mesh.cellVert, Mesh.cellVerts, Finset.sum_range_succ, Fin.sum_univ_three])
    (by
      norm_num [M0, Mesh.cellArea, Mesh.area2, Mesh.vtx, Mesh.cellVert, Mesh.cellVerts,
        Finset.sum_range_succ])
    (by
      unfold solvesLinearSystem
      intro i hi
      rw [Finset.mem_range] at hi
      have hi0 : i = 0 := by omega
      subst hi0
      norm_num [assemble_L1, M0, dofGrad, Mesh.cellArea, Mesh.area2, Mesh.basisGrad,
        Mesh.vtx, Mesh.cellVert, Mesh.cellVerts, Coeff.eval_cell, Finset.sum_range_succ,
        Fin.sum_univ_three])
    (by
      unfold solvesLinearSystem
      intro i hi
      rw [Finset.mem_range] at hi
      have hi0 : i = 0 := by omega
      subst hi0
      norm_num [assemble_L2, M0, dofGrad, Mesh.cellArea, Mesh.area2, Mesh.basisGrad,
        Mesh.vtx, Mesh.cellVert, Mesh.cellVerts, Coeff.eval_cell, Finset.sum_range_succ,
        Fin.sum_univ_three])

end Effective2D
